import Mathlib

/-!
Verification of the admin-console batch-mutation / searchable-picker core.

Shallow embedding of:
- `src/app/src/components/select.rs` (`SearchableSelect`),
- `src/app/src/components/add_group_member.rs` (`AddGroupMemberComponent`),
- `src/app/src/components/add_user_to_group.rs` (`AddUserToGroupComponent`).

Strings are embedded as `List Char` (`Str`).  Network calls, committed
notifications and error reports are modelled as an explicit `Effect` trace;
message handling is a step function over the component state, and `run`
folds a list of delivered messages, concatenating the effect traces in
delivery order.
-/

set_option maxHeartbeats 1000000

namespace LldapApp

/-- Rust `String` embedded as a list of characters. -/
abbrev Str := List Char

/-- Rust `str::to_lowercase`, embedded characterwise. -/
def to_lowercase (s : Str) : Str := s.map Char.toLower

/-- Does the second list start with the first? (prefix test backing the
substring test). -/
def starts_with : Str → Str → Bool
  | [], _ => true
  | _ :: _, [] => false
  | c :: cs, d :: ds => c == d && starts_with cs ds

/-- Does some suffix of the second list start with the first?  This is
the substring relation of Rust `str::contains`. -/
def has_substring (needle : Str) : Str → Bool
  | [] => needle.isEmpty
  | c :: cs => starts_with needle (c :: cs) || has_substring needle cs

/-- Rust `str::contains (needle)` on haystack `hay`: substring test. -/
def contains_sub (hay needle : Str) : Bool := has_substring needle hay

/-- Struct `SelectOptionProps` from `select.rs`: the UI-facing projection of an
entity, with a string `value` and display `text`. -/
structure SelectOptionProps where
  value : Str
  text : Str
deriving DecidableEq

/-- Struct `User` (`list_user_names::ListUserNamesUsers`) from
`add_group_member.rs`: id and display name, structural equality and hash
derived on both fields. -/
structure User where
  id : Str
  display_name : Str
deriving DecidableEq

/-- Struct `Group` (from `user_details`, fields visible at the `From` impl in
`add_user_to_group.rs`): an `i64` id (embedded as `Int`; every id the
server produces fits in `i64`) and a display name. -/
structure Group where
  id : Int
  display_name : Str
deriving DecidableEq

/-- Props of `SearchableSelect` that the update logic reads: the full
option list and the `multiple` flag. -/
structure SProps where
  options : List SelectOptionProps
  multiple : Bool
deriving DecidableEq

/-- Mutable state of `SearchableSelect`: the filtered option list and the
selected-value set.  The Rust `HashSet<String>` is embedded as a
duplicate-free list used only through membership, insert, remove, clear
and is-empty, so the list order is never observable. -/
structure SState where
  filtered_options : List SelectOptionProps
  selected_options : List Str
deriving DecidableEq

/-- Rust `HashSet::insert`: add the value if it is not already a member. -/
def hs_insert (v : Str) (l : List Str) : List Str :=
  if v ∈ l then l else v :: l

/-- Rust `HashSet::remove`: drop the value from the set. -/
def hs_remove (v : Str) (l : List Str) : List Str :=
  l.filter fun x => x != v

/-- Messages of `SearchableSelect`.  `onSearchChange` carries the current
text of the search input (read from the DOM node in the source). -/
inductive SMsg where
  | onSearchChange : Str → SMsg
  | onOptionSelect : SelectOptionProps → Bool → SMsg
  | onSubmit : SMsg

/-- The filtered-list recomputation of `SearchableSelectMsg::OnSearchChange`
in `select.rs`: lowercase the query; an empty query restores the full
props option list, otherwise keep the options whose lowercased text
contains the query as a substring. -/
def recompute_filter (options : List SelectOptionProps) (q : Str) : List SelectOptionProps :=
  let search_value := to_lowercase q
  if search_value.isEmpty then options
  else options.filter fun option => contains_sub (to_lowercase option.text) search_value

/-- Update function `SearchableSelect::update` from `select.rs`, returning the new state
and the list of `on_selection_change` emissions (each emission is one
list of options). -/
def searchable_select_update (props : SProps) (s : SState) :
    SMsg → SState × List (List SelectOptionProps)
  | SMsg.onSearchChange q =>
    ({ s with filtered_options := recompute_filter props.options q }, [])
  | SMsg.onOptionSelect option selected =>
    if props.multiple then
      if selected then
        ({ s with selected_options := hs_insert option.value s.selected_options }, [])
      else
        ({ s with selected_options := hs_remove option.value s.selected_options }, [])
    else
      let new_sel : List Str := if selected then hs_insert option.value [] else []
      let emitted := if selected then [option] else []
      ({ s with selected_options := new_sel }, [emitted])
  | SMsg.onSubmit =>
    if props.multiple then
      (s, [props.options.filter fun option => s.selected_options.contains option.value])
    else (s, [])

/-- The `disabled` attribute of the multi-mode submit button in
`SearchableSelect::view`. -/
def submit_button_disabled (s : SState) : Bool := s.selected_options.isEmpty

/-- The `!is_selected` flag the view's click handler passes with
`OnOptionSelect` in `SearchableSelect::view`. -/
def click_flag (s : SState) (option : SelectOptionProps) : Bool :=
  !(s.selected_options.contains option.value)

/-- One user click on an option row: dispatch `OnOptionSelect` with the
view-computed toggle flag. -/
def click (props : SProps) (s : SState) (option : SelectOptionProps) :
    SState × List (List SelectOptionProps) :=
  searchable_select_update props s (SMsg.onOptionSelect option (click_flag s option))

/-- Side effects observable outside a batch component: the
`AddUserToGroup` GraphQL mutation call (with its `user` and `group`
variables), the two committed-notification callbacks, and the parent
error report. -/
inductive Effect where
  | callAddUserToGroup : Str → Int → Effect
  | emitUserAdded : User → Effect
  | emitGroupAdded : Group → Effect
  | reportError : Str → Effect
deriving DecidableEq

/-- State of `AddGroupMemberComponent` (fields of the Rust struct other
than the `common` task bookkeeping, which lives outside `src/`). -/
structure GState where
  user_list : Option (List User)
  selected_users : List User
  current_add_index : Nat
deriving DecidableEq

/-- Messages of `AddGroupMemberComponent` (`Msg` in
`add_group_member.rs`); `Result` payloads are embedded as `Except`. -/
inductive GMsg where
  | userListResponse : Except Str (List User) → GMsg
  | submitAddMembers : GMsg
  | addMemberResponse : Except Str Unit → GMsg
  | selectionChanged : List SelectOptionProps → GMsg

/-- Method `AddGroupMemberComponent::add_next_user`: if the cursor is past the
end, do nothing; otherwise issue the mutation for the user at the
cursor.  `common.call_graphql` (outside `src/`) is modelled as emitting
one network-call effect, per the spec's AsyncTask contract. -/
def add_next_user (gid : Int) (s : GState) : GState × List Effect :=
  if h : s.current_add_index < s.selected_users.length then
    (s, [Effect.callAddUserToGroup (s.selected_users.get ⟨s.current_add_index, h⟩).id gid])
  else (s, [])

/-- The user a `SelectionChanged` option is converted back into by
`AddGroupMemberComponent::handle_msg`. -/
def option_to_user (p : SelectOptionProps) : User :=
  { id := p.value, display_name := p.text }

/-- Method `AddGroupMemberComponent::handle_msg`, returning the new state, the
effects emitted (notifications and dispatched calls, in program order)
and the error propagated by `?`, if any.  The returned re-render flag is
omitted; no claim concerns rendering. -/
def handle_msg (gid : Int) (s : GState) : GMsg → GState × List Effect × Option Str
  | GMsg.userListResponse (Except.error e) => (s, [], some e)
  | GMsg.userListResponse (Except.ok users) =>
    ({ s with user_list := some users }, [], none)
  | GMsg.submitAddMembers =>
    if s.selected_users.isEmpty then (s, [], none)
    else
      let r := add_next_user gid { s with current_add_index := 0 }
      (r.1, r.2, none)
  | GMsg.addMemberResponse (Except.error e) => (s, [], some e)
  | GMsg.addMemberResponse (Except.ok _) =>
    if h : s.current_add_index < s.selected_users.length then
      let user := s.selected_users.get ⟨s.current_add_index, h⟩
      let s1 := { s with current_add_index := s.current_add_index + 1 }
      if s1.current_add_index < s1.selected_users.length then
        let r := add_next_user gid s1
        (r.1, Effect.emitUserAdded user :: r.2, none)
      else (s1, [Effect.emitUserAdded user], none)
    else (s, [], none)
  | GMsg.selectionChanged options =>
    ({ s with selected_users := options.map option_to_user }, [], none)

/-- Modelled from the spec: `CommonComponentParts::update_and_report_error`
lives in `infra/common_component.rs`, which is not under `src/`; per the
spec's ErrorSink contract (§4.4, §7) an `Err` from `handle_msg` is
forwarded to the parent `on_error` callback.  Embedded as one
`reportError` effect. -/
def report_effects : Option Str → List Effect
  | some e => [Effect.reportError e]
  | none => []

/-- Deliver a list of messages to `AddGroupMemberComponent` in order on
the single-threaded event loop, collecting the effect trace.  The trace
order is the dispatch order: an effect of message `k` happens before
every effect of message `k+1`. -/
def run (gid : Int) : GState → List GMsg → GState × List Effect
  | s, [] => (s, [])
  | s, m :: ms =>
    let r := handle_msg gid s m
    let rest := run gid r.1 ms
    (rest.1, (r.2.1 ++ report_effects r.2.2) ++ rest.2)

/-- The user whose mutation is dispatched next after the users of `ms`
are still pending: the head of `ms`, or `u` when `ms` is empty. -/
def next_user (ms : List User) (u : User) : User :=
  match ms with
  | [] => u
  | v :: _ => v

/-- Effect trace produced by the success responses for the pending users
`mid` when a further user `u` (and possibly more) follows: each success
emits the committed notification for its user and dispatches the call
for the next one. -/
def chain_trace (gid : Int) (u : User) : List User → List Effect
  | [] => []
  | m :: ms =>
    Effect.emitUserAdded m ::
      Effect.callAddUserToGroup (next_user ms u).id gid :: chain_trace gid u ms

/-- Effect trace produced by the success responses that finish a batch:
starting at user `u` with `rest` still to do, each success emits the
committed notification and, when more users remain, the next call. -/
def done_trace (gid : Int) : User → List User → List Effect
  | u, [] => [Effect.emitUserAdded u]
  | u, v :: rest =>
    Effect.emitUserAdded u :: Effect.callAddUserToGroup v.id gid :: done_trace gid v rest

/-- State of `AddUserToGroupComponent` (fields of the Rust struct other
than the `common` task bookkeeping). -/
structure UState where
  group_list : Option (List Group)
  selected_groups : List Group
  current_add_index : Nat
deriving DecidableEq

/-- Decimal digit to its character, as Rust `to_string` renders it. -/
def digit_char : Nat → Char
  | 0 => '0'
  | 1 => '1'
  | 2 => '2'
  | 3 => '3'
  | 4 => '4'
  | 5 => '5'
  | 6 => '6'
  | 7 => '7'
  | 8 => '8'
  | 9 => '9'
  | _ => '?'

/-- Character to its decimal digit value, as Rust `from_str_radix`
classifies characters in base 10. -/
def char_digit (c : Char) : Option Nat :=
  if c = '0' then some 0
  else if c = '1' then some 1
  else if c = '2' then some 2
  else if c = '3' then some 3
  else if c = '4' then some 4
  else if c = '5' then some 5
  else if c = '6' then some 6
  else if c = '7' then some 7
  else if c = '8' then some 8
  else if c = '9' then some 9
  else none

/-- Little-endian base-10 digits with explicit fuel (structural
recursion, so closed instances evaluate by `decide`). -/
def digits_rev_fuel : Nat → Nat → List Nat
  | 0, _ => []
  | _, 0 => []
  | fuel + 1, n + 1 => (n + 1) % 10 :: digits_rev_fuel fuel ((n + 1) / 10)

/-- Little-endian base-10 digits of `n`. -/
def nat_to_digits_rev (n : Nat) : List Nat := digits_rev_fuel n n

/-- Rust `u64::to_string` (restricted to the values we feed it): decimal
digits, most significant first, the single zero digit for zero. -/
def nat_to_string (n : Nat) : Str :=
  if n = 0 then [digit_char 0]
  else (nat_to_digits_rev n).reverse.map digit_char

/-- Rust `i64::to_string`: optional leading minus sign, then the decimal
digits of the absolute value. -/
def i64_to_string (n : Int) : Str :=
  if n < 0 then '-' :: nat_to_string n.natAbs
  else nat_to_string n.natAbs

/-- Digit-value collection pass of Rust `i64::from_str` in base 10: every
character must be a decimal digit. -/
def parse_digit_values : Str → Option (List Nat)
  | [] => some []
  | c :: cs =>
    match char_digit c, parse_digit_values cs with
    | some d, some ds => some (d :: ds)
    | _, _ => none

/-- Digit-accumulation pass of Rust `i64::from_str`: at least one digit,
all characters digits, accumulated left to right as `acc * 10 + d`. -/
def parse_nat (cs : Str) : Option Nat :=
  if cs.isEmpty then none
  else (parse_digit_values cs).map fun ds => ds.foldl (fun a d => a * 10 + d) 0

/-- Rust `str::parse::<i64>` (`i64::from_str`): optional sign, at least
one digit, in-range check (`-2^63 ..= 2^63 - 1`).  Overflow during
Rust's accumulation is equivalent to the final range check because the
accumulator is monotone in the digits consumed. -/
def parse_i64 (cs : Str) : Option Int :=
  match cs with
  | [] => none
  | c :: rest =>
    if c = '-' then
      (parse_nat rest).bind fun m =>
        if (m : Int) ≤ 2 ^ 63 then some (-(m : Int)) else none
    else if c = '+' then
      (parse_nat rest).bind fun m =>
        if (m : Int) ≤ 2 ^ 63 - 1 then some ((m : Int)) else none
    else
      (parse_nat (c :: rest)).bind fun m =>
        if (m : Int) ≤ 2 ^ 63 - 1 then some ((m : Int)) else none

/-- Method `AddUserToGroupComponent::add_next_group`: past-the-end cursor does
nothing, otherwise the mutation for the group at the cursor is issued
with the component's username. -/
def add_next_group (username : Str) (t : UState) : UState × List Effect :=
  if h : t.current_add_index < t.selected_groups.length then
    (t, [Effect.callAddUserToGroup username (t.selected_groups.get ⟨t.current_add_index, h⟩).id])
  else (t, [])

/-- The `Msg::AddGroupResponse(Ok(_))` arm of
`AddUserToGroupComponent::handle_msg`: guarded commit of the group at
the cursor, cursor increment, and dispatch of the next call when one
remains. -/
def handle_add_group_response_ok (username : Str) (t : UState) : UState × List Effect :=
  if h : t.current_add_index < t.selected_groups.length then
    let group := t.selected_groups.get ⟨t.current_add_index, h⟩
    let t1 := { t with current_add_index := t.current_add_index + 1 }
    if t1.current_add_index < t1.selected_groups.length then
      let r := add_next_group username t1
      (r.1, Effect.emitGroupAdded group :: r.2)
    else (t1, [Effect.emitGroupAdded group])
  else (t, [])

/-- Method `AddGroupMemberComponent::get_selectable_user_list`: drop every
fetched user contained in the props' member set.  The Rust `HashSet`
holds whole `User` values, so containment is structural equality on id
and display name. -/
def get_selectable_user_list (props_users : List User) (user_list : List User) : List User :=
  user_list.filter fun u => !(props_users.contains u)

/-- Method `AddGroupMemberComponent::get_selectable_options`: project each
selectable user to an option, falling back to the id as text when the
display name is empty. -/
def get_selectable_options_users (props_users : List User) (user_list : List User) :
    List SelectOptionProps :=
  (get_selectable_user_list props_users user_list).map fun user =>
    { value := user.id
      text := if user.display_name.isEmpty then user.id else user.display_name }

/-- Method `AddUserToGroupComponent::get_selectable_group_list`: drop every
fetched group contained in the props' member set (structural equality,
as for users). -/
def get_selectable_group_list (props_groups : List Group) (group_list : List Group) : List Group :=
  group_list.filter fun g => !(props_groups.contains g)

/-- Method `AddUserToGroupComponent::get_selectable_options`: project each
selectable group to an option; the value is the stringified id and the
text is the display name, with no fallback. -/
def get_selectable_options_groups (props_groups : List Group) (group_list : List Group) :
    List SelectOptionProps :=
  (get_selectable_group_list props_groups group_list).map fun group =>
    { value := i64_to_string group.id, text := group.display_name }

/-- The `Msg::SelectionChanged` arm of
`AddUserToGroupComponent::handle_msg`: parse each option value back to
an `i64` with `unwrap`.  A failing parse panics in Rust; the panic is
embedded as `none`. -/
def selection_changed_groups : List SelectOptionProps → Option (List Group)
  | [] => some []
  | p :: rest =>
    match parse_i64 p.value, selection_changed_groups rest with
    | some n, some gs => some ({ id := n, display_name := p.text } :: gs)
    | _, _ => none

/-- The i64 range predicate for ids handled by the group picker. -/
def in_i64_range (n : Int) : Prop := -(2 ^ 63) ≤ n ∧ n ≤ 2 ^ 63 - 1

instance (n : Int) : Decidable (in_i64_range n) := by
  unfold in_i64_range
  infer_instance

/-- Concrete option used in witnesses. -/
def optA : SelectOptionProps := { value := ['a'], text := ['A'] }

/-- Concrete option used in witnesses. -/
def optB : SelectOptionProps := { value := ['b'], text := ['B'] }

/-- Concrete option used in witnesses and counterexamples. -/
def optC : SelectOptionProps := { value := ['c'], text := ['C'] }

/-- Concrete option used in counterexamples. -/
def optD : SelectOptionProps := { value := ['d'], text := ['D'] }

/-- Concrete option used in witnesses. -/
def optX : SelectOptionProps := { value := ['x'], text := ['X'] }

/-- Concrete user used in witnesses and counterexamples. -/
def uA : User := { id := ['a'], display_name := ['A'] }

/-- Concrete user used in witnesses and counterexamples. -/
def uB : User := { id := ['b'], display_name := ['B'] }

/-- Concrete member user for the C8 counterexample: same id as
`bobFetched`, different display name. -/
def bobMember : User := { id := ['b', 'o', 'b'], display_name := ['B', 'o', 'b', 'b', 'y'] }

/-- Concrete fetched user for the C8 counterexample. -/
def bobFetched : User := { id := ['b', 'o', 'b'], display_name := ['B', 'o', 'b'] }

/-- Concrete user with empty display name, for the C9 witness. -/
def uNoName : User := { id := ['n'], display_name := [] }

/-- Lemmas and claim theorems follow. -/
theorem has_substring_nil (hay : Str) : has_substring [] hay = true := by
  cases hay <;> simp [has_substring, starts_with, List.isEmpty]

theorem recompute_filter_sublist (options : List SelectOptionProps) (q : Str) :
    List.Sublist (recompute_filter options q) options := by
  unfold recompute_filter
  by_cases h : (to_lowercase q).isEmpty = true
  · simp only [h, if_true]
    exact List.Sublist.refl _
  · simp only [h, if_false]
    exact List.filter_sublist _

theorem mem_recompute_filter (options : List SelectOptionProps) (q : Str)
    (o : SelectOptionProps) :
    o ∈ recompute_filter options q ↔
      o ∈ options ∧ contains_sub (to_lowercase o.text) (to_lowercase q) = true := by
  unfold recompute_filter
  cases q with
  | nil =>
    simp [to_lowercase, contains_sub, has_substring_nil]
  | cons c cs =>
    simp [to_lowercase, List.mem_filter]

/-- C5: recomputing the filtered set on a search change restores the full
set for the empty query; for any query it is an order-preserving
subsequence of the full set containing exactly the options whose
lowercased text contains the lowercased query; recomputing twice with
the same query is idempotent; and the selected-value set (and the
emission channel) is untouched. -/
theorem search_filter_pure (props : SProps) (s : SState) (q : Str) :
    (searchable_select_update props s (SMsg.onSearchChange [])).1.filtered_options =
      props.options ∧
    List.Sublist (searchable_select_update props s (SMsg.onSearchChange q)).1.filtered_options
      props.options ∧
    (∀ o, o ∈ (searchable_select_update props s (SMsg.onSearchChange q)).1.filtered_options ↔
      o ∈ props.options ∧ contains_sub (to_lowercase o.text) (to_lowercase q) = true) ∧
    (searchable_select_update props
        ((searchable_select_update props s (SMsg.onSearchChange q)).1)
        (SMsg.onSearchChange q)).1 =
      (searchable_select_update props s (SMsg.onSearchChange q)).1 ∧
    (searchable_select_update props s (SMsg.onSearchChange q)).1.selected_options =
      s.selected_options ∧
    (searchable_select_update props s (SMsg.onSearchChange q)).2 = [] :=
  ⟨rfl, recompute_filter_sublist _ _, fun o => mem_recompute_filter _ _ o, rfl, rfl, rfl⟩

/-- C6: in multi mode, submit leaves the state unchanged and emits exactly
once the full option list filtered, in its original order, to the
members of the selected-value set; with an empty selection the submit
button is disabled and the only list that could be emitted is empty. -/
theorem multi_submit_emits_full_order (props : SProps) (s : SState)
    (hm : props.multiple = true) :
    searchable_select_update props s SMsg.onSubmit =
      (s, [props.options.filter fun o => s.selected_options.contains o.value]) ∧
    List.Sublist (props.options.filter fun o => s.selected_options.contains o.value)
      props.options ∧
    (∀ o, o ∈ props.options.filter (fun o => s.selected_options.contains o.value) ↔
      o ∈ props.options ∧ s.selected_options.contains o.value = true) ∧
    (s.selected_options = [] →
      submit_button_disabled s = true ∧
      (props.options.filter fun o => s.selected_options.contains o.value) = []) := by
  refine ⟨by simp [searchable_select_update, hm], List.filter_sublist _,
    fun o => List.mem_filter, ?_⟩
  intro h
  constructor
  · simp [submit_button_disabled, h]
  · simp [h]

/-- Witness for C6 at a concrete input: options A, B, C with C and A
selected (in click order C then A) produce the single emission
`[A, C]` in original option order. -/
theorem multi_submit_emits_full_order_witness :
    searchable_select_update { options := [optA, optB, optC], multiple := true }
        { filtered_options := [], selected_options := [optC.value, optA.value] }
        SMsg.onSubmit =
      ({ filtered_options := [], selected_options := [optC.value, optA.value] },
        [[optA, optC]]) :=
  (multi_submit_emits_full_order
    { options := [optA, optB, optC], multiple := true }
    { filtered_options := [], selected_options := [optC.value, optA.value] } rfl).1

/-- C7: in single mode every toggle clears the selected set and inserts
the clicked value exactly when the toggle turns it on, emitting the
single-element-or-empty list immediately; clicking A then B (B distinct,
A not already selected) emits `[A]` then `[B]` and ends with `{B}`
selected. -/
theorem single_mode_toggle_emits (props : SProps) (s : SState)
    (o a b : SelectOptionProps) (sel : Bool) (hm : props.multiple = false)
    (ha : s.selected_options.contains a.value = false) (hab : a.value ≠ b.value) :
    searchable_select_update props s (SMsg.onOptionSelect o sel) =
      ({ s with selected_options := if sel then [o.value] else [] },
        [if sel then [o] else []]) ∧
    (click props s a).2 = [[a]] ∧
    (click props (click props s a).1 b).2 = [[b]] ∧
    (click props (click props s a).1 b).1.selected_options = [b.value] := by
  have ha' : a.value ∉ s.selected_options := by simpa using ha
  have hne : ¬b.value = a.value := fun hc => hab hc.symm
  refine ⟨?_, ?_, ?_, ?_⟩
  · cases sel <;> simp [searchable_select_update, hm, hs_insert]
  · simp [click, click_flag, searchable_select_update, hm, hs_insert, ha']
  · simp [click, click_flag, searchable_select_update, hm, hs_insert, ha', hne]
  · simp [click, click_flag, searchable_select_update, hm, hs_insert, ha', hne]

/-- Witness for C7 at a concrete input: in a fresh single-mode widget,
toggling X on emits `[X]`, and clicking A then B emits `[A]` then `[B]`
ending with only B selected. -/
theorem single_mode_toggle_emits_witness :
    searchable_select_update { options := [optA, optB], multiple := false }
        { filtered_options := [], selected_options := [] }
        (SMsg.onOptionSelect optX true) =
      ({ filtered_options := [], selected_options := [optX.value] }, [[optX]]) ∧
    (click { options := [optA, optB], multiple := false }
        { filtered_options := [], selected_options := [] } optA).2 = [[optA]] ∧
    (click { options := [optA, optB], multiple := false }
        (click { options := [optA, optB], multiple := false }
          { filtered_options := [], selected_options := [] } optA).1 optB).2 = [[optB]] ∧
    (click { options := [optA, optB], multiple := false }
        (click { options := [optA, optB], multiple := false }
          { filtered_options := [], selected_options := [] } optA).1 optB).1.selected_options =
      [optB.value] :=
  single_mode_toggle_emits { options := [optA, optB], multiple := false }
    { filtered_options := [], selected_options := [] } optX optA optB true rfl
    (by decide) (by decide)

theorem run_append (gid : Int) :
    ∀ (xs ys : List GMsg) (s : GState),
      run gid s (xs ++ ys) =
        ((run gid (run gid s xs).1 ys).1,
          (run gid s xs).2 ++ (run gid (run gid s xs).1 ys).2) := by
  intro xs
  induction xs with
  | nil => intro ys s; simp [run]
  | cons m ms ih => intro ys s; simp [run, ih]

theorem run_cons (gid : Int) (s : GState) (m : GMsg) (ms : List GMsg) :
    run gid s (m :: ms) =
      ((run gid (handle_msg gid s m).1 ms).1,
        ((handle_msg gid s m).2.1 ++ report_effects (handle_msg gid s m).2.2) ++
          (run gid (handle_msg gid s m).1 ms).2) := rfl

theorem run_oks_all (gid : Int) (ul : Option (List User)) (L : List User) :
    ∀ (rest : List User) (u : User) (k : Nat), L.drop k = u :: rest →
      run gid ⟨ul, L, k⟩
          (List.replicate (rest.length + 1) (GMsg.addMemberResponse (Except.ok ()))) =
        (⟨ul, L, k + rest.length + 1⟩, done_trace gid u rest) := by
  intro rest
  induction rest with
  | nil =>
    intro u k hdrop
    have hk : k < L.length := by
      rcases Nat.lt_or_ge k L.length with h | h
      · exact h
      · rw [List.drop_eq_nil_iff.mpr h] at hdrop
        simp at hdrop
    rw [List.drop_eq_getElem_cons hk] at hdrop
    injection hdrop with hget hdrop1
    have hlen : L.length = k + 1 := by
      have hl := List.length_drop (k + 1) L
      rw [hdrop1] at hl
      simp at hl
      omega
    have hnot : ¬(k + 1 < L.length) := by omega
    simp [run, handle_msg, report_effects, hk, hnot, List.get_eq_getElem, hget, done_trace]
  | cons v rest' ih =>
    intro u k hdrop
    have hk : k < L.length := by
      rcases Nat.lt_or_ge k L.length with h | h
      · exact h
      · rw [List.drop_eq_nil_iff.mpr h] at hdrop
        simp at hdrop
    rw [List.drop_eq_getElem_cons hk] at hdrop
    injection hdrop with hget hdrop1
    have hlen : L.length = k + rest'.length + 2 := by
      have hl := List.length_drop (k + 1) L
      rw [hdrop1] at hl
      simp at hl
      omega
    have hk1 : k + 1 < L.length := by omega
    have hget1 : L[k + 1] = v := by
      have hd := hdrop1
      rw [List.drop_eq_getElem_cons hk1] at hd
      injection hd
    have ihv := ih v (k + 1) hdrop1
    have hstep : handle_msg gid ⟨ul, L, k⟩ (GMsg.addMemberResponse (Except.ok ())) =
        (⟨ul, L, k + 1⟩,
          [Effect.emitUserAdded u, Effect.callAddUserToGroup v.id gid], none) := by
      simp [handle_msg, add_next_user, hk, hk1, List.get_eq_getElem, hget, hget1]
    simp only [List.length_cons]
    rw [List.replicate_succ, run_cons, hstep]
    dsimp only
    rw [ihv]
    simp [Prod.ext_iff, GState.mk.injEq, done_trace, report_effects]
    omega

theorem run_oks_mid (gid : Int) (ul : Option (List User)) (L : List User) :
    ∀ (mid : List User) (u : User) (rest : List User) (k : Nat),
      L.drop k = mid ++ u :: rest →
      run gid ⟨ul, L, k⟩
          (List.replicate mid.length (GMsg.addMemberResponse (Except.ok ()))) =
        (⟨ul, L, k + mid.length⟩, chain_trace gid u mid) := by
  intro mid
  induction mid with
  | nil => intro u rest k hdrop; simp [run, chain_trace]
  | cons m ms ih =>
    intro u rest k hdrop
    rw [List.cons_append] at hdrop
    have hk : k < L.length := by
      rcases Nat.lt_or_ge k L.length with h | h
      · exact h
      · rw [List.drop_eq_nil_iff.mpr h] at hdrop
        simp at hdrop
    rw [List.drop_eq_getElem_cons hk] at hdrop
    injection hdrop with hget hdrop1
    have hlen : L.length = k + ms.length + rest.length + 2 := by
      have hl := List.length_drop (k + 1) L
      rw [hdrop1] at hl
      simp at hl
      omega
    have hk1 : k + 1 < L.length := by omega
    have hget1 : L[k + 1] = next_user ms u := by
      have hd := hdrop1
      cases ms with
      | nil =>
        rw [List.nil_append] at hd
        rw [List.drop_eq_getElem_cons hk1] at hd
        injection hd
      | cons w ws =>
        rw [List.cons_append] at hd
        rw [List.drop_eq_getElem_cons hk1] at hd
        injection hd
    have ihv := ih u rest (k + 1) hdrop1
    have hstep : handle_msg gid ⟨ul, L, k⟩ (GMsg.addMemberResponse (Except.ok ())) =
        (⟨ul, L, k + 1⟩,
          [Effect.emitUserAdded m,
            Effect.callAddUserToGroup (next_user ms u).id gid], none) := by
      simp [handle_msg, add_next_user, hk, hk1, List.get_eq_getElem, hget, hget1]
    simp only [List.length_cons]
    rw [List.replicate_succ, run_cons, hstep]
    dsimp only
    rw [ihv]
    simp [Prod.ext_iff, GState.mk.injEq, chain_trace, report_effects]
    omega

theorem done_trace_flatten (gid : Int) :
    ∀ (tail : List User) (u : User),
      done_trace gid u tail =
        Effect.emitUserAdded u ::
          (tail.map fun v =>
            [Effect.callAddUserToGroup v.id gid, Effect.emitUserAdded v]).flatten := by
  intro tail
  induction tail with
  | nil => intro u; simp [done_trace]
  | cons v r ih => intro u; simp [done_trace, ih v]

/-- C2: a submitted selection of size `N` whose mutations all succeed
issues exactly `N` calls, in selection order, each dispatched only after
the previous success is observed, with the committed notification for
item `k` emitted before the call for item `k + 1` (the trace is exactly
`call u1, emit u1, call u2, emit u2, ...`); an empty submitted selection
issues no call, emits no notification, and leaves the state unchanged. -/
theorem batch_all_success (gid : Int) (s0 : GState) :
    run gid s0 (GMsg.submitAddMembers ::
        List.replicate s0.selected_users.length (GMsg.addMemberResponse (Except.ok ()))) =
      (if s0.selected_users.isEmpty then s0
        else { s0 with current_add_index := s0.selected_users.length },
        (s0.selected_users.map fun u =>
          [Effect.callAddUserToGroup u.id gid, Effect.emitUserAdded u]).flatten) := by
  obtain ⟨ul, sel, k⟩ := s0
  cases sel with
  | nil => simp [run, handle_msg, report_effects]
  | cons u tail =>
    have hstep : handle_msg gid ⟨ul, u :: tail, k⟩ GMsg.submitAddMembers =
        (⟨ul, u :: tail, 0⟩, [Effect.callAddUserToGroup u.id gid], none) := by
      simp [handle_msg, add_next_user, List.get_eq_getElem]
    have hrest := run_oks_all gid ul (u :: tail) tail u 0 (by simp)
    simp only [List.length_cons]
    rw [run_cons, hstep]
    dsimp only
    rw [hrest]
    simp [report_effects, Prod.ext_iff, GState.mk.injEq, done_trace_flatten]

theorem take_get_drop {α : Type _} (L : List α) (j : Nat) (h : j < L.length) :
    L = L.take j ++ L.get ⟨j, h⟩ :: L.drop (j + 1) := by
  conv_lhs => rw [← List.take_append_drop j L]
  rw [List.drop_eq_getElem_cons h]
  simp [List.get_eq_getElem]

theorem get_zero_next_user (L : List User) (j : Nat) (h : j < L.length)
    (h0 : 0 < L.length) :
    L.get ⟨0, h0⟩ = next_user (L.take j) (L.get ⟨j, h⟩) := by
  cases L with
  | nil => simp at h0
  | cons x xs =>
    cases j with
    | zero => simp [next_user, List.take, List.get_eq_getElem]
    | succ m => simp [next_user, List.take, List.get_eq_getElem]

/-- C3: if the mutation for item `j` (0-indexed; item `i = j + 1`
1-indexed) fails, the calls dispatched are exactly those for items
up to `j`, exactly `j` committed notifications were emitted (items
before `j`, in order), no further call follows the failure, the cursor
stays at the failed index, and the error is reported once; no committed
step is retracted and no retry call appears in the trace. -/
theorem batch_first_failure (gid : Int) (s0 : GState) (j : Nat) (e : Str)
    (h : j < s0.selected_users.length) :
    run gid s0 (GMsg.submitAddMembers ::
        (List.replicate j (GMsg.addMemberResponse (Except.ok ())) ++
          [GMsg.addMemberResponse (Except.error e)])) =
      ({ s0 with current_add_index := j },
        Effect.callAddUserToGroup
            (next_user (s0.selected_users.take j) (s0.selected_users.get ⟨j, h⟩)).id gid ::
          (chain_trace gid (s0.selected_users.get ⟨j, h⟩) (s0.selected_users.take j) ++
            [Effect.reportError e])) := by
  obtain ⟨ul, sel, k⟩ := s0
  simp only at h ⊢
  have h0 : 0 < sel.length := by omega
  have hne : sel.isEmpty = false := by
    cases sel
    · simp at h0
    · rfl
  have hz : sel[0] = next_user (sel.take j) sel[j] := by
    simpa [List.get_eq_getElem] using get_zero_next_user sel j h h0
  have hstep : handle_msg gid ⟨ul, sel, k⟩ GMsg.submitAddMembers =
      (⟨ul, sel, 0⟩,
        [Effect.callAddUserToGroup (next_user (sel.take j) (sel.get ⟨j, h⟩)).id gid],
        none) := by
    simp [handle_msg, add_next_user, hne, h0, List.get_eq_getElem]
    rw [hz]
  have hdecomp : sel.drop 0 = sel.take j ++ sel.get ⟨j, h⟩ :: sel.drop (j + 1) := by
    rw [List.drop_zero]
    exact take_get_drop sel j h
  have hmid := run_oks_mid gid ul sel (sel.take j) (sel.get ⟨j, h⟩)
    (sel.drop (j + 1)) 0 hdecomp
  have hlenj : (sel.take j).length = j := by
    simp [List.length_take]
    omega
  rw [hlenj] at hmid
  rw [run_cons, hstep]
  dsimp only
  rw [run_append]
  rw [hmid]
  dsimp only
  have herr : run gid ⟨ul, sel, 0 + j⟩ [GMsg.addMemberResponse (Except.error e)] =
      (⟨ul, sel, 0 + j⟩, [Effect.reportError e]) := by
    simp [run, handle_msg, report_effects]
  rw [herr]
  simp [report_effects, Prod.ext_iff, GState.mk.injEq]

/-- Witness for C3 at a concrete input: selection `[uA, uB]`, first
mutation succeeds, second fails: two calls total, one committed
notification (for `uA`), cursor stays at the failed index 1, one error
report, nothing after it. -/
theorem batch_first_failure_witness :
    run 1 { user_list := none, selected_users := [uA, uB], current_add_index := 7 }
        (GMsg.submitAddMembers ::
          (List.replicate 1 (GMsg.addMemberResponse (Except.ok ())) ++
            [GMsg.addMemberResponse (Except.error ['x'])])) =
      ({ user_list := none, selected_users := [uA, uB], current_add_index := 1 },
        [Effect.callAddUserToGroup ['a'] 1, Effect.emitUserAdded uA,
          Effect.callAddUserToGroup ['b'] 1, Effect.reportError ['x']]) :=
  batch_first_failure 1 ⟨none, [uA, uB], 7⟩ 1 ['x'] (by decide)

/-- C1 counterexample: the selection is not snapshotted at submit.  With
selection `[uA, uB]` submitted, delivering a `SelectionChanged` to
`[optC, optD]` between the first call and its success response makes the
success commit entity C (not A) and dispatch the call for D (not B),
while without the mid-batch change the same messages commit A and call
B: the remaining steps, the committed entities and the mutated entities
all differ. -/
theorem selection_changed_mid_batch_cex :
    (run 1 { user_list := none, selected_users := [uA, uB], current_add_index := 0 }
        [GMsg.submitAddMembers, GMsg.selectionChanged [optC, optD],
          GMsg.addMemberResponse (Except.ok ())]).2 =
      [Effect.callAddUserToGroup ['a'] 1,
        Effect.emitUserAdded (option_to_user optC),
        Effect.callAddUserToGroup ['d'] 1] ∧
    (run 1 { user_list := none, selected_users := [uA, uB], current_add_index := 0 }
        [GMsg.submitAddMembers, GMsg.addMemberResponse (Except.ok ())]).2 =
      [Effect.callAddUserToGroup ['a'] 1, Effect.emitUserAdded uA,
        Effect.callAddUserToGroup ['b'] 1] ∧
    ([Effect.emitUserAdded (option_to_user optC), Effect.callAddUserToGroup ['d'] 1] :
        List Effect) ≠
      [Effect.emitUserAdded uA, Effect.callAddUserToGroup ['b'] 1] :=
  ⟨rfl, rfl, by decide⟩

/-- C1 amended: a `SelectionChanged` delivered after submit and before
completion replaces the live selection list while leaving the cursor
unchanged, so the next success response commits (and the chain continues
from) the entity of the NEW list at the current cursor, not the
originally submitted one. -/
theorem selection_changed_replaces_live_list (gid : Int) (s : GState)
    (opts : List SelectOptionProps)
    (h : s.current_add_index < (opts.map option_to_user).length) :
    handle_msg gid s (GMsg.selectionChanged opts) =
      ({ s with selected_users := opts.map option_to_user }, [], none) ∧
    ((run gid s [GMsg.selectionChanged opts, GMsg.addMemberResponse (Except.ok ())]).2).head? =
      some (Effect.emitUserAdded
        ((opts.map option_to_user).get ⟨s.current_add_index, h⟩)) := by
  refine ⟨rfl, ?_⟩
  have hL : s.current_add_index < opts.length := by simpa using h
  by_cases h2 : s.current_add_index + 1 < opts.length
  · simp [run, handle_msg, report_effects, add_next_user, List.get_eq_getElem, hL, h2]
  · simp [run, handle_msg, report_effects, add_next_user, List.get_eq_getElem, hL, h2]

/-- Witness for the amended C1 at a concrete input: with one user
submitted and the cursor at 0, a mid-batch selection change to
`[optC]` makes the next success commit C. -/
theorem selection_changed_replaces_live_list_witness :
    handle_msg 1 { user_list := none, selected_users := [uA], current_add_index := 0 }
        (GMsg.selectionChanged [optC]) =
      ({ user_list := none, selected_users := [option_to_user optC],
          current_add_index := 0 }, [], none) ∧
    ((run 1 { user_list := none, selected_users := [uA], current_add_index := 0 }
        [GMsg.selectionChanged [optC], GMsg.addMemberResponse (Except.ok ())]).2).head? =
      some (Effect.emitUserAdded (option_to_user optC)) :=
  selection_changed_replaces_live_list 1 ⟨none, [uA], 0⟩ [optC] (by decide)

/-- C4: a mutation-success completion delivered when the cursor is not
below the current selection length (the component's staleness guard, in
both batch components) is silently discarded: no committed notification,
no further call, no error, no out-of-bounds access, state unchanged. -/
theorem stale_success_discarded (gid : Int) (s : GState) (username : Str) (t : UState)
    (h1 : s.selected_users.length ≤ s.current_add_index)
    (h2 : t.selected_groups.length ≤ t.current_add_index) :
    handle_msg gid s (GMsg.addMemberResponse (Except.ok ())) = (s, [], none) ∧
    handle_add_group_response_ok username t = (t, []) := by
  constructor
  · have hn : ¬s.current_add_index < s.selected_users.length := by omega
    simp [handle_msg, hn]
  · have hn : ¬t.current_add_index < t.selected_groups.length := by omega
    simp [handle_add_group_response_ok, hn]

/-- Witness for C4 at concrete inputs: success responses arriving with an
empty selection and a nonzero cursor change nothing in either
component. -/
theorem stale_success_discarded_witness :
    handle_msg 0 { user_list := none, selected_users := [], current_add_index := 5 }
        (GMsg.addMemberResponse (Except.ok ())) =
      ({ user_list := none, selected_users := [], current_add_index := 5 }, [], none) ∧
    handle_add_group_response_ok ['u']
        { group_list := none, selected_groups := [], current_add_index := 3 } =
      ({ group_list := none, selected_groups := [], current_add_index := 3 }, []) :=
  stale_success_discarded 0 ⟨none, [], 5⟩ ['u'] ⟨none, [], 3⟩ (by decide) (by decide)

/-- C8 counterexample: exclusion of already-members compares whole
entities, not ids.  A fetched user with the id of an existing member but
a different display name is NOT excluded, and its id is offered by the
picker, although the claim (identity compared by id) says it never is. -/
theorem member_exclusion_by_id_cex :
    bobMember.id = bobFetched.id ∧
    get_selectable_user_list [bobMember] [bobFetched] = [bobFetched] ∧
    (get_selectable_options_users [bobMember] [bobFetched]).map (fun o => o.value) =
      [bobFetched.id] := by
  refine ⟨rfl, by decide, by decide⟩

/-- C8 amended: the upstream exclusion removes exactly the fetched
entities structurally equal (id AND display name) to some member, for
users and groups alike, preserving order; an entity matching a member
only by id stays in the option pool. -/
theorem member_exclusion_full_equality (props_users : List User) (user_list : List User)
    (props_groups : List Group) (group_list : List Group) :
    (∀ u, u ∈ get_selectable_user_list props_users user_list ↔
      u ∈ user_list ∧ u ∉ props_users) ∧
    List.Sublist (get_selectable_user_list props_users user_list) user_list ∧
    (∀ g, g ∈ get_selectable_group_list props_groups group_list ↔
      g ∈ group_list ∧ g ∉ props_groups) ∧
    List.Sublist (get_selectable_group_list props_groups group_list) group_list := by
  refine ⟨fun u => ?_, List.filter_sublist _, fun g => ?_, List.filter_sublist _⟩
  · simp [get_selectable_user_list, List.mem_filter]
  · simp [get_selectable_group_list, List.mem_filter]

/-- C9 counterexample: the group option projection has no empty-name
fallback.  A group with id 3 and empty display name yields the option
empty text, not the stringified id the claim requires. -/
theorem group_option_no_fallback_cex :
    get_selectable_options_groups [] [{ id := 3, display_name := [] }] =
      [{ value := ['3'], text := [] }] ∧
    i64_to_string (3 : Int) = ['3'] ∧
    (([] : Str) ≠ ['3']) := by
  refine ⟨by decide, by decide, by decide⟩

/-- C9 amended: every projected option's value is the entity id
(stringified for groups); USER options fall back to the id as text when
the display name is empty, while GROUP options always use the display
name, with no fallback. -/
theorem option_projection_amended (props_users : List User) (user_list : List User)
    (props_groups : List Group) (group_list : List Group) :
    get_selectable_options_users props_users user_list =
      (get_selectable_user_list props_users user_list).map (fun u =>
        { value := u.id
          text := if u.display_name.isEmpty then u.id else u.display_name }) ∧
    get_selectable_options_groups props_groups group_list =
      (get_selectable_group_list props_groups group_list).map (fun g =>
        { value := i64_to_string g.id, text := g.display_name }) ∧
    (∀ o, o ∈ get_selectable_options_users props_users user_list →
      ∃ u, u ∈ get_selectable_user_list props_users user_list ∧
        o.value = u.id ∧
        o.text = if u.display_name.isEmpty then u.id else u.display_name) ∧
    (∀ o, o ∈ get_selectable_options_groups props_groups group_list →
      ∃ g, g ∈ get_selectable_group_list props_groups group_list ∧
        o.value = i64_to_string g.id ∧ o.text = g.display_name) := by
  refine ⟨rfl, rfl, ?_, ?_⟩
  · intro o ho
    simp only [get_selectable_options_users, List.mem_map] at ho
    obtain ⟨u, hu, rfl⟩ := ho
    exact ⟨u, hu, rfl, rfl⟩
  · intro o ho
    simp only [get_selectable_options_groups, List.mem_map] at ho
    obtain ⟨g, hg, rfl⟩ := ho
    exact ⟨g, hg, rfl, rfl⟩

/-- Witness for the amended C9 at a concrete input: a user with empty
display name yields an option whose text falls back to the id. -/
theorem option_projection_amended_witness :
    ∃ u, u ∈ get_selectable_user_list [] [uNoName] ∧
      ({ value := ['n'], text := ['n'] } : SelectOptionProps).value = u.id ∧
      ({ value := ['n'], text := ['n'] } : SelectOptionProps).text =
        (if u.display_name.isEmpty then u.id else u.display_name) :=
  (option_projection_amended [] [uNoName] [] []).2.2.1
    { value := ['n'], text := ['n'] } (by decide)

theorem digit_char_digit (d : Nat) (h : d < 10) :
    char_digit (digit_char d) = some d ∧ digit_char d ≠ '-' ∧ digit_char d ≠ '+' := by
  interval_cases d <;> exact ⟨by decide, by decide, by decide⟩

theorem parse_digit_values_map (L : List Nat) (h : ∀ d ∈ L, d < 10) :
    parse_digit_values (L.map digit_char) = some L := by
  induction L with
  | nil => rfl
  | cons d ds ih =>
    have hd := (digit_char_digit d (h d (by simp))).1
    have hds := ih (fun x hx => h x (by simp [hx]))
    simp [parse_digit_values, hd, hds]

theorem digits_rev_fuel_eq (f : Nat) : ∀ n, n ≤ f → digits_rev_fuel f n = Nat.digits 10 n := by
  induction f with
  | zero =>
    intro n h
    have hn : n = 0 := by omega
    subst hn
    simp [digits_rev_fuel]
  | succ f ih =>
    intro n h
    cases n with
    | zero => simp [digits_rev_fuel]
    | succ m =>
      have hdiv : (m + 1) / 10 ≤ f := by
        have := Nat.div_lt_self (Nat.succ_pos m) (by norm_num : 1 < 10)
        omega
      rw [digits_rev_fuel, ih ((m + 1) / 10) hdiv,
        Nat.digits_def' (by norm_num : (1 : Nat) < 10) (Nat.succ_pos m)]

theorem nat_to_digits_rev_eq (n : Nat) : nat_to_digits_rev n = Nat.digits 10 n :=
  digits_rev_fuel_eq n n (Nat.le_refl n)

theorem foldr_eq_ofDigits (L : List Nat) :
    L.foldr (fun d a => a * 10 + d) 0 = Nat.ofDigits 10 L := by
  induction L with
  | nil => simp [Nat.ofDigits_nil]
  | cons d ds ih =>
    simp [Nat.ofDigits_cons, ih]
    omega

theorem parse_nat_map (L : List Nat) (hL : L ≠ []) (h : ∀ d ∈ L, d < 10) :
    parse_nat (L.map digit_char) = some (L.foldl (fun a d => a * 10 + d) 0) := by
  cases L with
  | nil => exact absurd rfl hL
  | cons d ds =>
    have h2 := parse_digit_values_map (d :: ds) h
    simp only [List.map_cons] at h2
    simp [parse_nat, h2]

theorem parse_nat_round (n : Nat) : parse_nat (nat_to_string n) = some n := by
  by_cases h0 : n = 0
  · subst h0
    rfl
  · have hd : nat_to_string n = ((Nat.digits 10 n).reverse).map digit_char := by
      simp [nat_to_string, h0, nat_to_digits_rev_eq]
    have hne : (Nat.digits 10 n).reverse ≠ [] := by
      simp [Nat.digits_ne_nil_iff_ne_zero, h0]
    have hlt : ∀ d ∈ (Nat.digits 10 n).reverse, d < 10 := by
      intro d hdm
      exact Nat.digits_lt_base (by norm_num) (List.mem_reverse.mp hdm)
    rw [hd, parse_nat_map _ hne hlt]
    congr 1
    rw [List.foldl_reverse, foldr_eq_ofDigits]
    exact Nat.ofDigits_digits 10 n

theorem nat_to_string_chars (n : Nat) :
    ∀ c ∈ nat_to_string n, c ≠ '-' ∧ c ≠ '+' := by
  intro c hc
  by_cases h0 : n = 0
  · subst h0
    simp [nat_to_string, digit_char] at hc
    subst hc
    exact ⟨by decide, by decide⟩
  · simp [nat_to_string, h0] at hc
    obtain ⟨d, hdm, rfl⟩ := hc
    have hdlt : d < 10 := by
      rw [nat_to_digits_rev_eq] at hdm
      exact Nat.digits_lt_base (by norm_num) hdm
    exact ⟨(digit_char_digit d hdlt).2.1, (digit_char_digit d hdlt).2.2⟩

theorem nat_to_string_ne_nil (n : Nat) : nat_to_string n ≠ [] := by
  by_cases h0 : n = 0
  · subst h0
    decide
  · simp [nat_to_string, h0, nat_to_digits_rev_eq, Nat.digits_ne_nil_iff_ne_zero]

theorem parse_i64_roundtrip (n : Int) (h1 : -(2 ^ 63) ≤ n) (h2 : n ≤ 2 ^ 63 - 1) :
    parse_i64 (i64_to_string n) = some n := by
  rcases lt_or_ge n 0 with hneg | hpos
  · have hs : i64_to_string n = '-' :: nat_to_string n.natAbs := by
      simp [i64_to_string, hneg]
    rw [hs]
    have habs : ((n.natAbs : Int)) = -n := Int.ofNat_natAbs_of_nonpos (le_of_lt hneg)
    have hB : ((n.natAbs : Int)) ≤ 2 ^ 63 := by
      rw [habs]
      omega
    simp only [parse_i64, if_pos rfl, parse_nat_round, Option.some_bind, if_pos hB]
    rw [habs]
    simp
  · have hnlt : ¬n < 0 := by omega
    have hs : i64_to_string n = nat_to_string n.natAbs := by
      simp [i64_to_string, hnlt]
    obtain ⟨c, cs, hcs⟩ : ∃ c cs, nat_to_string n.natAbs = c :: cs := by
      cases hx : nat_to_string n.natAbs with
      | nil => exact absurd hx (nat_to_string_ne_nil _)
      | cons c cs => exact ⟨c, cs, rfl⟩
    have hch := nat_to_string_chars n.natAbs c (by rw [hcs]; exact List.mem_cons_self c cs)
    have habs : ((n.natAbs : Int)) = n := Int.natAbs_of_nonneg hpos
    have hC : ((n.natAbs : Int)) ≤ 2 ^ 63 - 1 := by
      rw [habs]
      omega
    rw [hs, hcs]
    simp only [parse_i64, if_neg hch.1, if_neg hch.2]
    rw [← hcs, parse_nat_round]
    simp only [Option.some_bind, if_pos hC]
    rw [habs]

theorem selection_changed_groups_maps (L : List Group)
    (h : ∀ g ∈ L, in_i64_range g.id) :
    selection_changed_groups (L.map fun g =>
      { value := i64_to_string g.id, text := g.display_name }) = some L := by
  induction L with
  | nil => rfl
  | cons g gs ih =>
    have hg := h g (by simp)
    have hr := parse_i64_roundtrip g.id hg.1 hg.2
    have hgs := ih (fun x hx => h x (by simp [hx]))
    simp [selection_changed_groups, hr, hgs]

/-- C10: under the precondition that every fetched group id fits in
`i64` (always true of server-produced ids), the `SelectionChanged`
handler's `to_string`/`parse::<i64>` round trip succeeds on every option
produced by `get_selectable_options`, reconstructing exactly the
original groups, so the `unwrap` never panics. -/
theorem selection_changed_parse_roundtrip (props_groups group_list : List Group)
    (h : ∀ g ∈ group_list, in_i64_range g.id) :
    selection_changed_groups (get_selectable_options_groups props_groups group_list) =
      some (get_selectable_group_list props_groups group_list) :=
  selection_changed_groups_maps _
    (fun g hg => h g (List.mem_of_mem_filter hg))

/-- Witness for C10 at a concrete input: ids 0, -5 and 123 (one with an
empty display name) all round-trip and reconstruct the original
groups. -/
theorem selection_changed_parse_roundtrip_witness :
    selection_changed_groups (get_selectable_options_groups []
        [{ id := 0, display_name := ['z'] }, { id := -5, display_name := ['n'] },
          { id := 123, display_name := [] }]) =
      some [{ id := 0, display_name := ['z'] }, { id := -5, display_name := ['n'] },
        { id := 123, display_name := [] }] :=
  selection_changed_parse_roundtrip []
    [{ id := 0, display_name := ['z'] }, { id := -5, display_name := ['n'] },
      { id := 123, display_name := [] }] (by decide)

end LldapApp
